import Mathlib

/-!
# Verification of the factorlog format compiler and renderer

Shallow embedding of the factorlog logging library's core: the severity
model, the numeric encoders (`twoDigits`, `nDigits`, `itoa` and the naive
reference `allDigits`), and the two template grammars' format compilers and
renderers (`NewStdFormatter` / `StdFormatter.Format`, Grammar A with
single-character `%X` verbs and Grammar B with named `%\x7bName\x7d` verbs).

Modelling conventions:
* Go strings and byte slices are modelled as `List Char`; one `Char` stands
  for one byte (or one rune where Go iterates runes); Go's `byte(c)`
  truncation of a rune is `byteChar`.
* Go's panicking array/slice accesses (out-of-range index, negative slice
  bound) are modelled with `Option`: `none` is a runtime panic.
* The render loops thread the formatter's scratch buffer `tmp` exactly as
  the Go code mutates it.
-/

/-- Go `byte(c)`: truncate a rune to its low byte. -/
def byteChar (c : Char) : Char := Char.ofNat (c.toNat % 256)

/-- Go array/slice read `a[i]` with an `int` index: panics (`none`) unless
`0 ≤ i < len a`. -/
def goIndex (a : List String) (i : Int) : Option String :=
  if 0 ≤ i ∧ i < a.length then some (a.getD i.toNat "") else none

/-- Go slice expression `s[:n]` with an `int` bound: panics (`none`) unless
`0 ≤ n ≤ len s`. -/
def goSliceTo (s : List Char) (n : Int) : Option (List Char) :=
  if 0 ≤ n ∧ n ≤ s.length then some (s.take n.toNat) else none

/-- Go `copy(buf[i:], buf[j:])` (memmove semantics): returns the updated
buffer and the number of elements copied. -/
def goCopy (buf : List Char) (i j : Nat) : List Char × Nat :=
  let n := min (buf.length - i) (buf.length - j)
  (buf.take i ++ (buf.drop j).take n ++ buf.drop (i + n), n)

/-! ## Severity model (factorlog.go) -/

/-- Go `type Severity int`. -/
abbrev Severity := Int

def NONE : Severity := 0
def TRACE : Severity := 1
def DEBUG : Severity := 2
def INFO : Severity := 3
def WARN : Severity := 4
def ERROR : Severity := 5
def CRITICAL : Severity := 6
def STACK : Severity := 7
def FATAL : Severity := 8
def PANIC : Severity := 9

/-- `SeverityStrings` from factorlog.go. -/
def SeverityStrings : List String :=
  ["", "TRAC", "DEBG", "INFO", "WARN", "EROR", "CRIT", "STAK", "FATL", "PANC"]

/-- `LongSeverityStrings` from factorlog.go. -/
def LongSeverityStrings : List String :=
  ["NONE", "TRACE", "DEBUG", "INFO", "WARN", "ERROR", "CRITICAL", "STACK",
   "FATAL", "PANIC"]

/-- `SeverityFromString` from factorlog.go: a `switch` on the nine
uppercase names, defaulting to `NONE`. -/
def SeverityFromString (l : String) : Severity :=
  if l = "TRACE" then TRACE
  else if l = "DEBUG" then DEBUG
  else if l = "INFO" then INFO
  else if l = "WARN" then WARN
  else if l = "ERROR" then ERROR
  else if l = "CRITICAL" then CRITICAL
  else if l = "STACK" then STACK
  else if l = "FATAL" then FATAL
  else if l = "PANIC" then PANIC
  else NONE

/-! ## Numeric encoders (misc.go) -/

/-- `digits` constant: "0123456789". -/
def digits : List Char := ['0', '1', '2', '3', '4', '5', '6', '7', '8', '9']

/-- `twoDigits(buf, i, d)`: writes the two low decimal digits of `d` at
`buf[i]` and `buf[i+1]`. -/
def twoDigits (buf : List Char) (i d : Nat) : List Char :=
  let buf1 := buf.set (i + 1) (digits.getD (d % 10) '0')
  let d1 := d / 10
  buf1.set i (digits.getD (d1 % 10) '0')

/-- Body of the `nDigits` loop: `j` counts down from `n-1` to `0`, writing
`buf[i+j] = digits[d%10]` and dividing `d` by 10 each step. -/
def nDigitsAux (buf : List Char) (i d : Nat) : Nat → List Char
  | 0 => buf.set i (digits.getD (d % 10) '0')
  | j + 1 =>
    nDigitsAux (buf.set (i + (j + 1)) (digits.getD (d % 10) '0')) i (d / 10) j

/-- `nDigits(buf, n, i, d)`: writes exactly `n` decimal digits of `d` (the
low `n` digits, most significant first) starting at `buf[i]`. -/
def nDigits (buf : List Char) (n i d : Nat) : List Char :=
  match n with
  | 0 => buf
  | m + 1 => nDigitsAux buf i d m

/-- `ddigits` constant: the 200-character two-digit lookup table
"000102...9899". -/
def ddigits : List Char :=
  ("0001020304050607080910111213141516171819" ++
   "2021222324252627282930313233343536373839" ++
   "4041424344454647484950515253545556575859" ++
   "6061626364656667686970717273747576777879" ++
   "8081828384858687888990919293949596979899").toList

/-- The `for d >= 100` loop of `itoa`: peels two decimal digits per
iteration using the `ddigits` table, writing right-to-left from index `j`.
Returns the buffer, the final `j` and the remaining `d < 100`. -/
def itoaLoop (buf : List Char) (j d : Nat) : List Char × Nat × Nat :=
  if h : d ≥ 100 then
    let index := (d % 100) * 2
    let j1 := j - 1
    let buf1 := buf.set j1 (ddigits.getD (index + 1) '0')
    let j2 := j1 - 1
    let buf2 := buf1.set j2 (ddigits.getD index '0')
    itoaLoop buf2 j2 (d / 100)
  else (buf, j, d)
termination_by d
decreasing_by exact Nat.div_lt_self (by omega) (by omega)

/-- `itoa(buf, i, d)`: variable-width decimal encoder; writes the digits of
`d` right-to-left at the end of `buf`, then `copy`s them to index `i`,
returning the updated buffer and the digit count. -/
def itoa (buf : List Char) (i d : Nat) : List Char × Nat :=
  let r := itoaLoop buf buf.length d
  let buf1 := r.1
  let j1 := r.2.1
  let d1 := r.2.2
  if d1 < 10 then
    let j2 := j1 - 1
    let buf2 := buf1.set j2 (Char.ofNat (48 + d1))
    goCopy buf2 i j2
  else
    let index := d1 * 2
    let j2 := j1 - 1
    let buf2 := buf1.set j2 (ddigits.getD (index + 1) '0')
    let j3 := j2 - 1
    let buf3 := buf2.set j3 (ddigits.getD index '0')
    goCopy buf3 i j3

/-- The `for` loop of `allDigits` (format_test.go): one decimal digit per
iteration, right-to-left from index `j`. -/
def allDigitsLoop (buf : List Char) (j d : Nat) : List Char × Nat :=
  let j1 := j - 1
  let buf1 := buf.set j1 (digits.getD (d % 10) '0')
  let d1 := d / 10
  if d1 = 0 then (buf1, j1) else allDigitsLoop buf1 j1 d1
termination_by d
decreasing_by exact Nat.div_lt_self (by omega) (by omega)

/-- `allDigits(buf, i, d)` from format_test.go: the naive reference
variable-width decimal encoder. -/
def allDigits (buf : List Char) (i d : Nat) : List Char × Nat :=
  let r := allDigitsLoop buf buf.length d
  goCopy r.1 i r.2

/-- The minimal decimal ASCII representation of `d` (specification-side
description of what both encoders write: no leading zeros, single digit
`'0'` for zero). -/
def digitBytes (d : Nat) : List Char :=
  if _h : 10 ≤ d then digitBytes (d / 10) ++ [digits.getD (d % 10) '0']
  else [digits.getD d '0']
termination_by d
decreasing_by exact Nat.div_lt_self (by omega) (by omega)

/-! ## Time values

Go `time.Time` is consumed only through `Date()`, `Clock()`,
`Nanosecond()`, `Unix()` and `UnixNano()`; we model a time value by those
decomposed fields. -/

structure GoTime where
  year : Nat
  month : Nat
  day : Nat
  hour : Nat
  minute : Nat
  sec : Nat
  nsec : Nat
  unix : Nat
  unixNano : Nat
deriving DecidableEq, Repr

/-- `filepath.Separator` on a POSIX system. -/
def pathSeparator : Char := '/'

/-- The `for ; slash >= 0; slash--` scan locating the last path separator:
scans indices downward from `i`. -/
def lastSepIdx (s : List Char) : Nat → Option Nat
  | 0 => if s.getD 0 ' ' = pathSeparator then some 0 else none
  | k + 1 =>
    if s.getD (k + 1) ' ' = pathSeparator then some (k + 1) else lastSepIdx s k

/-- Index of the last path separator in `s`, `none` when there is none
(Go's `slash` ends at `-1`). -/
def lastSepPos (s : List Char) : Option Nat :=
  if s.length = 0 then none else lastSepIdx s (s.length - 1)

/-- `file = file[slash+1:]` after the separator scan (no-op when no
separator was found). -/
def stripAfterLastSep (s : List Char) : List Char :=
  match lastSepPos s with
  | some i => s.drop (i + 1)
  | none => s

/-- `postNewline`: the shared post-processing of both renderers — append a
line feed when the accumulated output is non-empty and does not already
end with one. -/
def postNewline (buf : List Char) : List Char :=
  if 0 < buf.length ∧ buf.getLast? ≠ some '\n' then buf ++ ['\n'] else buf

/-! ## Grammar A: single-character verbs (format.go) -/

namespace GrammarA

/-- `fmtVerb` from format.go; `val` below gives the `1 << iota` bit. -/
inductive fmtVerb where
  | vSTRING
  | vDATE_D
  | vDATE_d
  | vTIME_T
  | vTIME_t
  | vSEVERITY
  | vSHORT_SEVERITY
  | vFILE
  | vSHORT_FILE
  | vEXTRA_SHORT_FILE
  | vLINE
  | vMESSAGE
  | vPACKAGE_FUNCTION
  | vFUNCTION
deriving DecidableEq, Repr

/-- The `1 << iota` value of each verb constant. -/
def fmtVerb.val : fmtVerb → Nat
  | .vSTRING => 1
  | .vDATE_D => 2
  | .vDATE_d => 4
  | .vTIME_T => 8
  | .vTIME_t => 16
  | .vSEVERITY => 32
  | .vSHORT_SEVERITY => 64
  | .vFILE => 128
  | .vSHORT_FILE => 256
  | .vEXTRA_SHORT_FILE => 512
  | .vLINE => 1024
  | .vMESSAGE => 2048
  | .vPACKAGE_FUNCTION => 4096
  | .vFUNCTION => 8192

/-- `vRUNTIME_CALLER`: the verbs that need `runtime.Caller`. -/
def vRUNTIME_CALLER : Nat :=
  fmtVerb.vPACKAGE_FUNCTION.val ||| fmtVerb.vFUNCTION.val |||
  fmtVerb.vFILE.val ||| fmtVerb.vSHORT_FILE.val |||
  fmtVerb.vEXTRA_SHORT_FILE.val ||| fmtVerb.vLINE.val

/-- The `switch c` of `NewStdFormatter`, as a lookup (each recognized
character maps to its verb; `'%'` and unknown characters are handled by
the caller). -/
def verbOf (c : Char) : Option fmtVerb :=
  if c = 'T' then some .vTIME_T
  else if c = 't' then some .vTIME_t
  else if c = 'D' then some .vDATE_D
  else if c = 'd' then some .vDATE_d
  else if c = 'L' then some .vSEVERITY
  else if c = 'l' then some .vSHORT_SEVERITY
  else if c = 'F' then some .vFILE
  else if c = 'f' then some .vSHORT_FILE
  else if c = 'x' then some .vEXTRA_SHORT_FILE
  else if c = 's' then some .vLINE
  else if c = 'M' then some .vMESSAGE
  else if c = 'P' then some .vPACKAGE_FUNCTION
  else if c = 'p' then some .vFUNCTION
  else none

/-- `StdFormatter` from format.go. -/
structure StdFormatter where
  frmt : List Char
  strings : List (List Char)
  parts : List fmtVerb
  tmp : List Char
  flags : Nat
deriving Repr

/-- The rune loop of `NewStdFormatter`, including the final flush of the
pending literal run (the code after the loop). -/
def scan (isverb : Bool) (raw : List Char) (strs : List (List Char))
    (parts : List fmtVerb) (flags : Nat) :
    List Char → List (List Char) × List fmtVerb × Nat
  | [] =>
    if 0 < raw.length then (strs ++ [raw], parts ++ [.vSTRING], flags)
    else (strs, parts, flags)
  | c :: cs =>
    if isverb = false ∧ c = '%' then
      if 0 < raw.length then
        scan true [] (strs ++ [raw]) (parts ++ [.vSTRING]) flags cs
      else scan true raw strs parts flags cs
    else if isverb then
      match verbOf c with
      | some v => scan false raw strs (parts ++ [v]) (flags ||| v.val) cs
      | none =>
        if c = '%' then scan false (raw ++ ['%']) strs parts flags cs
        else scan false (raw ++ ['%', byteChar c]) strs parts flags cs
    else scan false (raw ++ [byteChar c]) strs parts flags cs

/-- `NewStdFormatter` from format.go: parse a format string into a
formatter (the 64-byte `tmp` scratch buffer starts zeroed). -/
def NewStdFormatter (frmt : List Char) : StdFormatter :=
  let r := scan false [] [] [] 0 frmt
  ⟨frmt, r.1, r.2.1, List.replicate 64 (Char.ofNat 0), r.2.2⟩

/-- `StdFormatter.ShouldRuntimeCaller` from format.go. -/
def ShouldRuntimeCaller (f : StdFormatter) : Bool :=
  f.flags &&& vRUNTIME_CALLER != 0

/-- `LogRecord` from format.go. -/
structure LogRecord where
  Time : GoTime
  Severity : Severity
  File : List Char
  Line : Nat
  Function : List Char
  Package : List Char
  Message : List Char
deriving Repr

/-- The `vSHORT_FILE` / `vEXTRA_SHORT_FILE` branch of `Format`: empty file
renders `"???"`, otherwise the directory is stripped and, for the
extra-short verb only, the slice `file[:len(file)-3]` is taken (which
panics when the base name is shorter than 3 bytes). -/
def shortFile (extra : Bool) (f : List Char) : Option (List Char) :=
  if f.length = 0 then some ['?', '?', '?']
  else
    let file := stripAfterLastSep f
    if extra then goSliceTo file ((file.length : Int) - 3) else some file

/-- The instruction loop of `StdFormatter.Format`: walks `parts`, consuming
one entry of `strings` per `vSTRING`, threading the scratch buffer `tmp`.
`none` models a runtime panic. -/
def formatStep (data : LogRecord) :
    List Char → List (List Char) → List Char → List fmtVerb →
    Option (List Char)
  | buf, _, _, [] => some buf
  | buf, strs, tmp, p :: ps =>
    match p with
    | .vSTRING =>
      match strs with
      | [] => none
      | s :: rest => formatStep data (buf ++ s) rest tmp ps
    | .vTIME_T =>
      let tmp := twoDigits tmp 0 data.Time.hour
      let tmp := tmp.set 2 ':'
      let tmp := twoDigits tmp 3 data.Time.minute
      let tmp := tmp.set 5 ':'
      let tmp := twoDigits tmp 6 data.Time.sec
      let tmp := tmp.set 8 '.'
      let tmp := nDigits tmp 6 9 data.Time.nsec
      formatStep data (buf ++ tmp.take 15) strs tmp ps
    | .vTIME_t =>
      let tmp := twoDigits tmp 0 data.Time.hour
      let tmp := tmp.set 2 ':'
      let tmp := twoDigits tmp 3 data.Time.minute
      let tmp := tmp.set 5 ':'
      let tmp := twoDigits tmp 6 data.Time.sec
      formatStep data (buf ++ tmp.take 8) strs tmp ps
    | .vDATE_D =>
      let tmp := nDigits tmp 4 0 data.Time.year
      let tmp := tmp.set 4 '-'
      let tmp := twoDigits tmp 5 data.Time.month
      let tmp := tmp.set 7 '-'
      let tmp := twoDigits tmp 8 data.Time.day
      formatStep data (buf ++ tmp.take 10) strs tmp ps
    | .vDATE_d =>
      let tmp := nDigits tmp 4 0 data.Time.year
      let tmp := tmp.set 4 '/'
      let tmp := twoDigits tmp 5 data.Time.month
      let tmp := tmp.set 7 '/'
      let tmp := twoDigits tmp 8 data.Time.day
      formatStep data (buf ++ tmp.take 10) strs tmp ps
    | .vSEVERITY =>
      match goIndex LongSeverityStrings data.Severity with
      | none => none
      | some s => formatStep data (buf ++ s.toList) strs tmp ps
    | .vSHORT_SEVERITY =>
      match goIndex SeverityStrings data.Severity with
      | none => none
      | some s => formatStep data (buf ++ s.toList) strs tmp ps
    | .vFILE => formatStep data (buf ++ data.File) strs tmp ps
    | .vSHORT_FILE =>
      match shortFile false data.File with
      | none => none
      | some file => formatStep data (buf ++ file) strs tmp ps
    | .vEXTRA_SHORT_FILE =>
      match shortFile true data.File with
      | none => none
      | some file => formatStep data (buf ++ file) strs tmp ps
    | .vLINE =>
      let r := itoa tmp 0 data.Line
      formatStep data (buf ++ r.1.take r.2) strs r.1 ps
    | .vMESSAGE => formatStep data (buf ++ data.Message) strs tmp ps
    | .vPACKAGE_FUNCTION => formatStep data (buf ++ data.Function) strs tmp ps
    | .vFUNCTION => formatStep data (buf ++ data.Package) strs tmp ps

/-- `StdFormatter.Format` from format.go: run the instruction loop, then
append the trailing line feed when needed. -/
def StdFormatter.Format (f : StdFormatter) (data : LogRecord) :
    Option (List Char) :=
  (formatStep data [] f.strings f.tmp f.parts).map postNewline

end GrammarA

/-! ## Grammar B: named verbs (src/unnamed/part_001) -/

namespace GrammarB

/-- `fmtVerb` from part_001; `val` below gives the `1 << iota` bit. -/
inductive fmtVerb where
  | vSTRING
  | vSEVERITY
  | vSeverity
  | vseverity
  | vSEV
  | vSev
  | vsev
  | vS
  | vs
  | vDate
  | vTime
  | vUnix
  | vUnixNano
  | vFullFile
  | vFile
  | vShortFile
  | vLine
  | vFullFunction
  | vPkgFunction
  | vFunction
  | vColor
  | vMessage
  | vSafeMessage
deriving DecidableEq, Repr

/-- The `1 << iota` value of each verb constant. -/
def fmtVerb.val : fmtVerb → Nat
  | .vSTRING => 1
  | .vSEVERITY => 2
  | .vSeverity => 4
  | .vseverity => 8
  | .vSEV => 16
  | .vSev => 32
  | .vsev => 64
  | .vS => 128
  | .vs => 256
  | .vDate => 512
  | .vTime => 1024
  | .vUnix => 2048
  | .vUnixNano => 4096
  | .vFullFile => 8192
  | .vFile => 16384
  | .vShortFile => 32768
  | .vLine => 65536
  | .vFullFunction => 131072
  | .vPkgFunction => 262144
  | .vFunction => 524288
  | .vColor => 1048576
  | .vMessage => 2097152
  | .vSafeMessage => 4194304

/-- `vRUNTIME_CALLER`: the verbs that need `runtime.Caller`. -/
def vRUNTIME_CALLER : Nat :=
  fmtVerb.vFullFile.val ||| fmtVerb.vFile.val ||| fmtVerb.vShortFile.val |||
  fmtVerb.vLine.val ||| fmtVerb.vFullFunction.val |||
  fmtVerb.vPkgFunction.val ||| fmtVerb.vFunction.val

/-- `verbMap` from part_001, as a lookup by name. -/
def verbMap (v : List Char) : Option fmtVerb :=
  if v = "SEVERITY".toList then some .vSEVERITY
  else if v = "Severity".toList then some .vSeverity
  else if v = "severity".toList then some .vseverity
  else if v = "SEV".toList then some .vSEV
  else if v = "Sev".toList then some .vSev
  else if v = "sev".toList then some .vsev
  else if v = "S".toList then some .vS
  else if v = "s".toList then some .vs
  else if v = "Date".toList then some .vDate
  else if v = "Time".toList then some .vTime
  else if v = "Unix".toList then some .vUnix
  else if v = "UnixNano".toList then some .vUnixNano
  else if v = "FullFile".toList then some .vFullFile
  else if v = "File".toList then some .vFile
  else if v = "ShortFile".toList then some .vShortFile
  else if v = "Line".toList then some .vLine
  else if v = "FullFunction".toList then some .vFullFunction
  else if v = "PkgFunction".toList then some .vPkgFunction
  else if v = "Function".toList then some .vFunction
  else if v = "Color".toList then some .vColor
  else if v = "Message".toList then some .vMessage
  else if v = "SafeMessage".toList then some .vSafeMessage
  else none

/-! ### The verb regular expression

`formatRe` is the RE2 pattern matching `%`, `\x7b`, one or more ASCII
letters (first capture), optionally one whitespace character followed by a
lazy run ending in a non-backslash character (second capture), and `\x7d`.
We implement its leftmost-first matching directly. -/

/-- RE2 class `[A-Za-z]`. -/
def isREletter (c : Char) : Bool :=
  ('A' ≤ c && c ≤ 'Z') || ('a' ≤ c && c ≤ 'z')

/-- RE2 class `\s` = space, tab, line feed, form feed, carriage return. -/
def isREspace (c : Char) : Bool :=
  c = ' ' || c = '\t' || c = '\n' || c = '\x0c' || c = '\r'

/-- Length of the maximal leading `[A-Za-z]` run. -/
def letterRun : List Char → Nat
  | [] => 0
  | c :: cs => if isREletter c then letterRun cs + 1 else 0

/-- Lazy search for the layout: the smallest `t ≥ 1` such that the first
`t-1` characters match `.` (any but line feed), character `t` matches
`[^\\]`, and the next character is `\x7d`. -/
def lazyLayout : List Char → Option Nat
  | a :: b :: rest =>
    if a ≠ '\\' ∧ b = '\x7d' then some 1
    else if a ≠ '\n' then (lazyLayout (b :: rest)).map (· + 1)
    else none
  | _ => none

/-- Match `formatRe` exactly at the head of `u`; returns the total match
length, the verb name and the optional layout capture. -/
def matchAtHead (u : List Char) : Option (Nat × List Char × Option (List Char)) :=
  match u with
  | c0 :: c1 :: rest =>
    if c0 = '%' ∧ c1 = '\x7b' then
      let k := letterRun rest
      if k = 0 then none
      else
        match rest.drop k with
        | [] => none
        | w :: u1 =>
          if isREspace w then
            match lazyLayout u1 with
            | some t => some (2 + k + 1 + t + 1, rest.take k, some (u1.take t))
            | none => none
          else if w = '\x7d' then some (2 + k + 1, rest.take k, none)
          else none
    else none
  | _ => none

/-- One regexp match: absolute start/end offsets, verb and layout
(`m[0]..m[5]` of `FindAllStringSubmatchIndex`). -/
structure BMatch where
  start : Nat
  stop : Nat
  verb : List Char
  layout : Option (List Char)
deriving DecidableEq, Repr

/-- Scan for all non-overlapping leftmost-first matches; `u` is the suffix
of the format at absolute position `pos`, `fuel` bounds the recursion. -/
def findAllAux : Nat → List Char → Nat → List BMatch
  | 0 => fun _ _ => []
  | fuel + 1 => fun u pos =>
    match matchAtHead u with
    | some (len, verb, layout) =>
      ⟨pos, pos + len, verb, layout⟩ :: findAllAux fuel (u.drop len) (pos + len)
    | none =>
      match u with
      | [] => []
      | _ :: u1 => findAllAux fuel u1 (pos + 1)

/-- `formatRe.FindAllStringSubmatchIndex(frmt, -1)`. -/
def findAll (frmt : List Char) : List BMatch :=
  findAllAux (frmt.length + 1) frmt 0

/-! ### Compilation -/

/-- Modelled from the spec: the external ansi library's `ansi.Reset`
escape string (a fixed ANSI escape; its exact bytes are irrelevant to the
claims, only that it is spliced in as a literal at compile time). -/
def ansiReset : List Char := ['\x1b', '[', '0', 'm']

/-- Modelled from the spec: the external ansi library's
`ansi.ColorCode(layout)` — the argument selects a fixed ANSI-style escape
code string. -/
def ansiColorCode (layout : List Char) : List Char :=
  '\x1b' :: '[' :: layout ++ ['m']

/-- `StdFormatter` from part_001 (`layouts` is declared but never
appended to by the code; `stmp` carries no observable state, its reuse is
an allocation optimization). -/
structure StdFormatter where
  frmt : List Char
  strings : List (List Char)
  parts : List fmtVerb
  layouts : List (List Char)
  tmp : List Char
  flags : Nat
deriving Repr

/-- `StdFormatter.appendString`: push a literal segment unless empty. -/
def appendString (strs : List (List Char)) (parts : List fmtVerb)
    (s : List Char) : List (List Char) × List fmtVerb :=
  if 0 < s.length then (strs ++ [s], parts ++ [.vSTRING]) else (strs, parts)

/-- The match loop of `NewStdFormatter`, including the final flush of
`frmt[prev:]`. -/
def compileLoop (frmt : List Char) (prev : Nat) (strs : List (List Char))
    (parts : List fmtVerb) (flags : Nat) :
    List BMatch → List (List Char) × List fmtVerb × Nat
  | [] =>
    let tail := frmt.drop prev
    if tail ≠ [] then
      let r := appendString strs parts tail
      (r.1, r.2, flags)
    else (strs, parts, flags)
  | m :: ms =>
    let pre := (frmt.drop prev).take (m.start - prev)
    let r0 := if prev < m.start then appendString strs parts pre else (strs, parts)
    let layout := m.layout.getD []
    match verbMap m.verb with
    | some v =>
      if v = .vColor then
        let r1 :=
          if layout = "reset".toList then appendString r0.1 r0.2 ansiReset
          else appendString r0.1 r0.2 (ansiColorCode layout)
        compileLoop frmt m.stop r1.1 r1.2 flags ms
      else
        compileLoop frmt m.stop r0.1 (r0.2 ++ [v]) (flags ||| v.val) ms
    | none => compileLoop frmt m.stop r0.1 r0.2 flags ms

/-- `NewStdFormatter` from part_001: run `formatRe` over the template and
fold the matches. -/
def NewStdFormatter (frmt : List Char) : StdFormatter :=
  let r := compileLoop frmt 0 [] [] 0 (findAll frmt)
  ⟨frmt, r.1, r.2.1, [], List.replicate 64 (Char.ofNat 0), r.2.2⟩

/-- `StdFormatter.ShouldRuntimeCaller` from part_001. -/
def ShouldRuntimeCaller (f : StdFormatter) : Bool :=
  f.flags &&& vRUNTIME_CALLER != 0

/-! ### Rendering -/

/-- Modelled from the spec: `LogContext` (declared outside the provided
sources; its fields are those the renderers read — timestamp, severity,
source location, function, message, pid). -/
structure LogContext where
  Time : GoTime
  Severity : Severity
  File : List Char
  Line : Nat
  Function : List Char
  Message : List Char
  Pid : Nat
deriving Repr

/-- Modelled from the spec: `UcSeverityStrings` — the full-uppercase
severity string table (entries TRACE..PANIC as documented on
`NewStdFormatter`; the index-0 entry is the NONE entry). -/
def UcSeverityStrings : List String :=
  ["NONE", "TRACE", "DEBUG", "INFO", "WARN", "ERROR", "CRITICAL", "STACK",
   "FATAL", "PANIC"]

/-- Modelled from the spec: `CapSeverityStrings` — capitalized variants. -/
def CapSeverityStrings : List String :=
  ["None", "Trace", "Debug", "Info", "Warn", "Error", "Critical", "Stack",
   "Fatal", "Panic"]

/-- Modelled from the spec: `LcSeverityStrings` — lowercase variants. -/
def LcSeverityStrings : List String :=
  ["none", "trace", "debug", "info", "warn", "error", "critical", "stack",
   "fatal", "panic"]

/-- Modelled from the spec: `UcShortSeverityStrings` — 4-letter uppercase
abbreviations. -/
def UcShortSeverityStrings : List String :=
  ["NONE", "TRAC", "DEBG", "INFO", "WARN", "EROR", "CRIT", "STAK", "FATL",
   "PANC"]

/-- Modelled from the spec: `CapShortSeverityStrings`. -/
def CapShortSeverityStrings : List String :=
  ["None", "Trac", "Debg", "Info", "Warn", "Eror", "Crit", "Stak", "Fatl",
   "Panc"]

/-- Modelled from the spec: `LcShortSeverityStrings`. -/
def LcShortSeverityStrings : List String :=
  ["none", "trac", "debg", "info", "warn", "eror", "crit", "stak", "fatl",
   "panc"]

/-- Modelled from the spec: `UcShortestSeverityStrings` — 1-letter
uppercase codes. -/
def UcShortestSeverityStrings : List String :=
  ["N", "T", "D", "I", "W", "E", "C", "S", "F", "P"]

/-- Modelled from the spec: `LcShortestSeverityStrings`. -/
def LcShortestSeverityStrings : List String :=
  ["n", "t", "d", "i", "w", "e", "c", "s", "f", "p"]

/-- Modelled from the spec: `i64toa` (declared outside the provided
sources) — the variable-width encoder applied to 64-bit time values; same
algorithm as `itoa`. -/
def i64toa (buf : List Char) (i d : Nat) : List Char × Nat := itoa buf i d

/-- The `vFile` / `vShortFile` branch of `Format`: empty file renders
`"???"`, the directory is stripped, and for `vShortFile` the slice
`file[:len(file)-3]` is taken unguarded afterwards. -/
def fileB (short : Bool) (f : List Char) : Option (List Char) :=
  let file := if f.length = 0 then ['?', '?', '?'] else stripAfterLastSep f
  if short then goSliceTo file ((file.length : Int) - 3) else some file

/-- The `vFunction` scan: walk backwards recording the leftmost `.` seen
until a path separator appears; Go's `lastDot` is `-1` when no dot. -/
def funcLastDot (s : List Char) : Nat → Int → Int
  | 0, acc =>
    if s.getD 0 ' ' = pathSeparator then acc
    else if s.getD 0 ' ' = '.' then 0 else acc
  | i + 1, acc =>
    if s.getD (i + 1) ' ' = pathSeparator then acc
    else
      funcLastDot s i (if s.getD (i + 1) ' ' = '.' then (i + 1 : Int) else acc)

/-- `fun = fun[lastDot+1:]` for the `vFunction` verb. -/
def functionStrip (s : List Char) : List Char :=
  let lastDot := if s.length = 0 then -1 else funcLastDot s (s.length - 1) (-1)
  s.drop (lastDot + 1).toNat

/-- The `vSafeMessage` loop: runes below 32 are replaced by the 4-byte
sequence `\xDD` built with `twoDigits` in `tmp[0:4]`; other runes are
appended as `byte(c)`. Returns the escaped message and the final `tmp`. -/
def safeLoop (tmp stmp : List Char) : List Char → List Char × List Char
  | [] => (stmp, tmp)
  | c :: cs =>
    if c.toNat < 32 then
      let tmp := tmp.set 0 '\\'
      let tmp := tmp.set 1 'x'
      let tmp := twoDigits tmp 2 c.toNat
      safeLoop tmp (stmp ++ tmp.take 4) cs
    else safeLoop tmp (stmp ++ [byteChar c]) cs

/-- The instruction loop of part_001's `StdFormatter.Format`. `none`
models a runtime panic. -/
def formatStep (context : LogContext) :
    List Char → List (List Char) → List Char → List fmtVerb →
    Option (List Char)
  | buf, _, _, [] => some buf
  | buf, strs, tmp, p :: ps =>
    match p with
    | .vSTRING =>
      match strs with
      | [] => none
      | s :: rest => formatStep context (buf ++ s) rest tmp ps
    | .vSEVERITY =>
      match goIndex UcSeverityStrings context.Severity with
      | none => none
      | some s => formatStep context (buf ++ s.toList) strs tmp ps
    | .vSeverity =>
      match goIndex CapSeverityStrings context.Severity with
      | none => none
      | some s => formatStep context (buf ++ s.toList) strs tmp ps
    | .vseverity =>
      match goIndex LcSeverityStrings context.Severity with
      | none => none
      | some s => formatStep context (buf ++ s.toList) strs tmp ps
    | .vSEV =>
      match goIndex UcShortSeverityStrings context.Severity with
      | none => none
      | some s => formatStep context (buf ++ s.toList) strs tmp ps
    | .vSev =>
      match goIndex CapShortSeverityStrings context.Severity with
      | none => none
      | some s => formatStep context (buf ++ s.toList) strs tmp ps
    | .vsev =>
      match goIndex LcShortSeverityStrings context.Severity with
      | none => none
      | some s => formatStep context (buf ++ s.toList) strs tmp ps
    | .vS =>
      match goIndex UcShortestSeverityStrings context.Severity with
      | none => none
      | some s => formatStep context (buf ++ s.toList) strs tmp ps
    | .vs =>
      match goIndex LcShortestSeverityStrings context.Severity with
      | none => none
      | some s => formatStep context (buf ++ s.toList) strs tmp ps
    | .vDate =>
      let tmp := nDigits tmp 4 0 context.Time.year
      let tmp := tmp.set 4 '-'
      let tmp := twoDigits tmp 5 context.Time.month
      let tmp := tmp.set 7 '-'
      let tmp := twoDigits tmp 8 context.Time.day
      formatStep context (buf ++ tmp.take 10) strs tmp ps
    | .vTime =>
      let tmp := twoDigits tmp 0 context.Time.hour
      let tmp := tmp.set 2 ':'
      let tmp := twoDigits tmp 3 context.Time.minute
      let tmp := tmp.set 5 ':'
      let tmp := twoDigits tmp 6 context.Time.sec
      formatStep context (buf ++ tmp.take 8) strs tmp ps
    | .vUnix =>
      let r := i64toa tmp 0 context.Time.unix
      formatStep context (buf ++ r.1.take r.2) strs r.1 ps
    | .vUnixNano =>
      let r := i64toa tmp 0 context.Time.unixNano
      formatStep context (buf ++ r.1.take r.2) strs r.1 ps
    | .vFullFile => formatStep context (buf ++ context.File) strs tmp ps
    | .vFile =>
      match fileB false context.File with
      | none => none
      | some file => formatStep context (buf ++ file) strs tmp ps
    | .vShortFile =>
      match fileB true context.File with
      | none => none
      | some file => formatStep context (buf ++ file) strs tmp ps
    | .vLine =>
      let r := itoa tmp 0 context.Line
      formatStep context (buf ++ r.1.take r.2) strs r.1 ps
    | .vFullFunction =>
      formatStep context (buf ++ context.Function) strs tmp ps
    | .vPkgFunction =>
      formatStep context (buf ++ stripAfterLastSep context.Function) strs tmp ps
    | .vFunction =>
      formatStep context (buf ++ functionStrip context.Function) strs tmp ps
    | .vMessage => formatStep context (buf ++ context.Message) strs tmp ps
    | .vSafeMessage =>
      let r := safeLoop tmp [] context.Message
      formatStep context (buf ++ r.1) strs r.2 ps
    | .vColor => formatStep context buf strs tmp ps

/-- part_001's `StdFormatter.Format`: run the instruction loop, then
append the trailing line feed when needed. (`vColor` never occurs in
`parts`; the loop case for it is Go's implicit no-op `switch` fallthrough.) -/
def StdFormatter.Format (f : StdFormatter) (context : LogContext) :
    Option (List Char) :=
  (formatStep context [] f.strings f.tmp f.parts).map postNewline

end GrammarB

/-! ## Concrete records for counterexamples and witnesses -/

/-- The timestamp of the repository's test record,
`time.Unix(0, 1389223634000123456)` (2014-01-08 18:27:14.000123456 UTC). -/
def tBase : GoTime :=
  ⟨2014, 1, 8, 18, 27, 14, 123456, 1389223634, 1389223634000123456⟩

/-- The Grammar A test record from format_test.go. -/
def recBase : GrammarA.LogRecord :=
  ⟨tBase, PANIC, "/path/to/testing.go".toList, 391, "pkg.func".toList,
   "pkg".toList, "hello there!".toList⟩

/-- A corresponding Grammar B log context. -/
def ctxBase : GrammarB.LogContext :=
  ⟨tBase, ERROR, "/path/to/factorlog_test.go".toList, 391,
   "github.com/kdar/factorlog.TestLog".toList, "hello there!".toList, 1234⟩

/-! ## Post-processing characterization -/

/-- `postNewline` in the claim's if-form. -/
theorem postNewline_eq (raw : List Char) :
    postNewline raw =
      if raw = [] then raw
      else if raw.getLast? = some '\n' then raw else raw ++ ['\n'] := by
  unfold postNewline
  by_cases h0 : raw = []
  · subst h0; simp
  · by_cases hl : raw.getLast? = some '\n' <;>
      simp [h0, hl, List.length_pos]

/-- C1: the renderer's output termination. For every format and record,
when the instruction loop succeeds with accumulated output `raw`, `Format`
returns `raw` with exactly one line-feed byte appended iff `raw` is
non-empty and does not already end in one; and the compiled empty template
renders any record to the empty byte sequence, with no line feed appended
(both grammars). -/
theorem c1_trailing_newline :
    (∀ (f : GrammarA.StdFormatter) (data : GrammarA.LogRecord)
        (raw : List Char),
        GrammarA.formatStep data [] f.strings f.tmp f.parts = some raw →
        f.Format data =
          some (if raw = [] then raw
                else if raw.getLast? = some '\n' then raw
                else raw ++ ['\n'])) ∧
    (∀ data : GrammarA.LogRecord,
        (GrammarA.NewStdFormatter []).Format data = some []) ∧
    (∀ (f : GrammarB.StdFormatter) (ctx : GrammarB.LogContext)
        (raw : List Char),
        GrammarB.formatStep ctx [] f.strings f.tmp f.parts = some raw →
        f.Format ctx =
          some (if raw = [] then raw
                else if raw.getLast? = some '\n' then raw
                else raw ++ ['\n'])) ∧
    (∀ ctx : GrammarB.LogContext,
        (GrammarB.NewStdFormatter []).Format ctx = some []) := by
  refine ⟨?_, ?_, ?_, ?_⟩
  · intro f data raw h
    unfold GrammarA.StdFormatter.Format
    rw [h, Option.map_some', postNewline_eq]
  · intro data; rfl
  · intro f ctx raw h
    unfold GrammarB.StdFormatter.Format
    rw [h, Option.map_some', postNewline_eq]
  · intro ctx; rfl

/-- Witness for C1 at concrete inputs: the template `"hi"` renders the
base records to `"hi\n"` in both grammars. -/
theorem c1_trailing_newline_witness :
    (GrammarA.NewStdFormatter ['h', 'i']).Format recBase =
      some (if (['h', 'i'] : List Char) = [] then ['h', 'i']
            else if (['h', 'i'] : List Char).getLast? = some '\n' then
              ['h', 'i']
            else ['h', 'i'] ++ ['\n']) ∧
    (GrammarB.NewStdFormatter ['h', 'i']).Format ctxBase =
      some (if (['h', 'i'] : List Char) = [] then ['h', 'i']
            else if (['h', 'i'] : List Char).getLast? = some '\n' then
              ['h', 'i']
            else ['h', 'i'] ++ ['\n']) :=
  ⟨c1_trailing_newline.1 (GrammarA.NewStdFormatter ['h', 'i']) recBase
      ['h', 'i'] (by decide),
   c1_trailing_newline.2.2.1 (GrammarB.NewStdFormatter ['h', 'i']) ctxBase
      ['h', 'i'] (by decide)⟩

/-- C2 (failing input): the record's `Severity` field is a Go `int`; for
the out-of-range severity `10` (one past `PANIC`), rendering the compiled
Grammar A template `"%L"` indexes `LongSeverityStrings[10]`, out of
bounds, and the render panics (`none`) instead of clamping to the `NONE`
entry. -/
theorem c2_severity_oob_panics :
    GrammarA.StdFormatter.Format (GrammarA.NewStdFormatter ['%', 'L'])
      { recBase with Severity := 10 } = none ∧
    GrammarB.StdFormatter.Format
      (GrammarB.NewStdFormatter
        ('%' :: '\x7b' :: "SEVERITY".toList ++ ['\x7d']))
      { ctxBase with Severity := 10 } = none := by
  exact ⟨by decide, by decide⟩

/-- C3 (failing input): for a record whose `File` is `"ab"` (base name
shorter than 3 bytes), rendering the compiled Grammar A template `"%x"`
evaluates the slice `file[:len(file)-3]` with a negative bound and panics
(`none`); the Grammar B `ShortFile` verb does the same. -/
theorem c3_extra_short_file_panics :
    GrammarA.StdFormatter.Format (GrammarA.NewStdFormatter ['%', 'x'])
      { recBase with File := ['a', 'b'] } = none ∧
    GrammarB.StdFormatter.Format
      (GrammarB.NewStdFormatter
        ('%' :: '\x7b' :: "ShortFile".toList ++ ['\x7d']))
      { ctxBase with File := ['a', 'b'] } = none := by
  exact ⟨by decide, by decide⟩

/-- C9 (failing input): the `SafeMessage` verb rewrites the control byte
10 (line feed) to the four bytes `\x10` — a backslash-x prefix followed by
the byte's two **decimal** digits — not the hexadecimal `\x0a` the spec
describes. -/
theorem c9_safe_message_decimal :
    GrammarB.StdFormatter.Format
      (GrammarB.NewStdFormatter
        ('%' :: '\x7b' :: "SafeMessage".toList ++ ['\x7d']))
      { ctxBase with Message := ['\n'] } = some "\\x10\n".toList ∧
    ("\\x10\n".toList : List Char) ≠ "\\x0a\n".toList := by
  exact ⟨by decide, by decide⟩

/-- C10: `SeverityFromString` is a left inverse of `LongSeverityStrings`
on the enumerated levels TRACE..PANIC and returns `NONE` on every string
that is not one of the nine uppercase names. -/
theorem c10_severity_from_string :
    (∀ i : Nat, 1 ≤ i → i ≤ 9 →
        SeverityFromString (LongSeverityStrings.getD i "") = Int.ofNat i) ∧
    (∀ s : String, s ∉ LongSeverityStrings.drop 1 →
        SeverityFromString s = NONE) := by
  constructor
  · intro i h1 h2
    interval_cases i <;> rfl
  · intro s hs
    simp only [LongSeverityStrings, List.drop_succ_cons, List.drop_zero,
      List.mem_cons, List.not_mem_nil, or_false, not_or] at hs
    obtain ⟨h1, h2, h3, h4, h5, h6, h7, h8, h9⟩ := hs
    simp [SeverityFromString, h1, h2, h3, h4, h5, h6, h7, h8, h9]

/-- Witness for C10: `"PANIC"` maps back to severity 9, and the
mixed-case `"panic"` falls through to `NONE`. -/
theorem c10_severity_from_string_witness :
    SeverityFromString (LongSeverityStrings.getD 9 "") = Int.ofNat 9 ∧
    SeverityFromString "panic" = NONE :=
  ⟨c10_severity_from_string.1 9 (by decide) (by decide),
   c10_severity_from_string.2 "panic" (by decide)⟩

/-! ## Literal-preservation lemmas -/

/-- `byteChar` is the identity on single-byte runes. -/
theorem byteChar_eq_self (c : Char) (h : c.toNat < 256) : byteChar c = c := by
  unfold byteChar
  rw [Nat.mod_eq_of_lt h, Char.ofNat_toNat]

/-- The Grammar A scanner accumulates verb-free single-byte input into the
pending literal run. -/
theorem GrammarA.scan_literal (cs : List Char) :
    ∀ raw strs parts flags rest, '%' ∉ cs → (∀ c ∈ cs, c.toNat < 256) →
    GrammarA.scan false raw strs parts flags (cs ++ rest) =
      GrammarA.scan false (raw ++ cs) strs parts flags rest := by
  induction cs with
  | nil => intro raw strs parts flags rest _ _; simp
  | cons c cs ih =>
    intro raw strs parts flags rest hmem hbytes
    have hc : ¬ c = '%' := by
      intro h; exact hmem (h ▸ List.mem_cons_self c cs)
    have hb : c.toNat < 256 := hbytes c (List.mem_cons_self c cs)
    have h1 : GrammarA.scan false raw strs parts flags (c :: (cs ++ rest)) =
        GrammarA.scan false (raw ++ [c]) strs parts flags (cs ++ rest) := by
      simp [GrammarA.scan, hc, byteChar_eq_self c hb]
    rw [List.cons_append, h1, ih (raw ++ [c]) strs parts flags rest
      (fun h => hmem (List.mem_cons_of_mem c h))
      (fun x hx => hbytes x (List.mem_cons_of_mem c hx)),
      List.append_assoc]
    rfl

/-- A verb-free single-byte template compiles to one literal segment and
renders as itself (plus post-processing). -/
theorem GrammarA.formatA_literal (frmt : List Char) (data : GrammarA.LogRecord)
    (hne : frmt ≠ []) (hp : '%' ∉ frmt) (hb : ∀ c ∈ frmt, c.toNat < 256) :
    (GrammarA.NewStdFormatter frmt).Format data = some (postNewline frmt) := by
  have hscan : GrammarA.scan false [] [] [] 0 frmt =
      ([frmt], [.vSTRING], 0) := by
    have := GrammarA.scan_literal frmt [] [] [] 0 [] hp hb
    rw [List.append_nil] at this
    rw [this]
    simp [GrammarA.scan, hne, List.length_pos]
  have h2 : GrammarA.NewStdFormatter frmt =
      ⟨frmt, [frmt], [.vSTRING], List.replicate 64 (Char.ofNat 0), 0⟩ := by
    simp only [GrammarA.NewStdFormatter, hscan]
  rw [h2]
  unfold GrammarA.StdFormatter.Format
  simp [GrammarA.formatStep]

/-- `matchAtHead` needs an opening brace in the second position. -/
theorem GrammarB.matchAtHead_no_brace (u : List Char) (h : '\x7b' ∉ u) :
    GrammarB.matchAtHead u = none := by
  match u with
  | [] => rfl
  | [c] => rfl
  | c0 :: c1 :: rest =>
    have hc : ¬ c1 = '\x7b' := by
      intro hh; exact h (by simp [hh])
    simp [GrammarB.matchAtHead, hc]

/-- A brace-free suffix admits no matches. -/
theorem GrammarB.findAllAux_no_brace :
    ∀ (fuel : Nat) (u : List Char) (pos : Nat), '\x7b' ∉ u →
    GrammarB.findAllAux fuel u pos = [] := by
  intro fuel
  induction fuel with
  | zero => intro u pos _; rfl
  | succ n ih =>
    intro u pos h
    simp only [GrammarB.findAllAux, GrammarB.matchAtHead_no_brace u h]
    cases u with
    | nil => rfl
    | cons c u1 => exact ih u1 (pos + 1) (fun hm => h (List.mem_cons_of_mem c hm))

/-- A brace-free template has no verb matches at all. -/
theorem GrammarB.findAll_no_brace (frmt : List Char) (h : '\x7b' ∉ frmt) :
    GrammarB.findAll frmt = [] :=
  GrammarB.findAllAux_no_brace (frmt.length + 1) frmt 0 h

/-- A template with no verb matches compiles to one literal segment and
renders as itself (plus post-processing). -/
theorem GrammarB.formatB_literal (frmt : List Char) (ctx : GrammarB.LogContext)
    (hne : frmt ≠ []) (h : GrammarB.findAll frmt = []) :
    (GrammarB.NewStdFormatter frmt).Format ctx = some (postNewline frmt) := by
  have hc : GrammarB.compileLoop frmt 0 [] [] 0 [] = ([frmt], [.vSTRING], 0) := by
    simp [GrammarB.compileLoop, GrammarB.appendString, hne, List.length_pos]
  have h2 : GrammarB.NewStdFormatter frmt =
      ⟨frmt, [frmt], [.vSTRING], [], List.replicate 64 (Char.ofNat 0), 0⟩ := by
    simp only [GrammarB.NewStdFormatter, h, hc]
  rw [h2]
  unfold GrammarB.StdFormatter.Format
  simp [GrammarB.formatStep]

/-- C5 (counterexample at the empty template): the empty template contains
no verbs, yet rendering it yields the empty sequence, not the template
followed by an appended line terminator. -/
theorem c5_empty_template_cex :
    GrammarA.StdFormatter.Format (GrammarA.NewStdFormatter []) recBase =
      some [] ∧
    some ([] : List Char) ≠ some (([] : List Char) ++ ['\n']) :=
  ⟨rfl, by decide⟩

/-- C5 (amended): for every **non-empty** template with no verbs (for
Grammar A: no sentinel `'%'` at all, and single-byte characters so the
rune-to-byte copy is faithful; for Grammar B: no `formatRe` match),
compiling and rendering yields exactly the template, followed by a line
feed if the template did not already end with one. -/
theorem c5_literal_roundtrip :
    ∀ frmt : List Char, frmt ≠ [] →
    (∀ data : GrammarA.LogRecord,
        '%' ∉ frmt → (∀ c ∈ frmt, c.toNat < 256) →
        (GrammarA.NewStdFormatter frmt).Format data =
          some (if frmt.getLast? = some '\n' then frmt
                else frmt ++ ['\n'])) ∧
    (∀ ctx : GrammarB.LogContext,
        GrammarB.findAll frmt = [] →
        (GrammarB.NewStdFormatter frmt).Format ctx =
          some (if frmt.getLast? = some '\n' then frmt
                else frmt ++ ['\n'])) := by
  intro frmt hne
  constructor
  · intro data hp hb
    rw [GrammarA.formatA_literal frmt data hne hp hb, postNewline_eq]
    simp [hne]
  · intro ctx hm
    rw [GrammarB.formatB_literal frmt ctx hne hm, postNewline_eq]
    simp [hne]

/-- Witness for C5 at the template `"ok"` in both grammars. -/
theorem c5_literal_roundtrip_witness :
    (GrammarA.NewStdFormatter ['o', 'k']).Format recBase =
      some (if (['o', 'k'] : List Char).getLast? = some '\n' then ['o', 'k']
            else ['o', 'k'] ++ ['\n']) ∧
    (GrammarB.NewStdFormatter ['o', 'k']).Format ctxBase =
      some (if (['o', 'k'] : List Char).getLast? = some '\n' then ['o', 'k']
            else ['o', 'k'] ++ ['\n']) :=
  ⟨(c5_literal_roundtrip ['o', 'k'] (by decide)).1 recBase (by decide)
      (by decide),
   (c5_literal_roundtrip ['o', 'k'] (by decide)).2 ctxBase (by decide)⟩

/-- C6 (counterexample): in Grammar B the doubled sentinel `"%%"` is not
an escape — it compiles as two literal `'%'` bytes, not one. -/
theorem c6_doubled_sentinel_cex :
    GrammarB.StdFormatter.Format (GrammarB.NewStdFormatter ['%', '%'])
      ctxBase = some ['%', '%', '\n'] ∧
    (['%', '%', '\n'] : List Char) ≠ ['%', '\n'] :=
  ⟨by decide, by decide⟩

/-- C6 (amended): in Grammar A a doubled sentinel compiles to a single
literal `'%'` (shown inside any verb-free single-byte context); Grammar B
has no doubling escape, so `"%%"` stays two literal `'%'` bytes (shown
inside any brace-free context). -/
theorem c6_doubled_sentinel :
    (∀ (a b : List Char) (data : GrammarA.LogRecord),
        '%' ∉ a → '%' ∉ b →
        (∀ c ∈ a, c.toNat < 256) → (∀ c ∈ b, c.toNat < 256) →
        (GrammarA.NewStdFormatter (a ++ '%' :: '%' :: b)).Format data =
          some (postNewline (a ++ '%' :: b))) ∧
    (∀ (a b : List Char) (ctx : GrammarB.LogContext),
        '\x7b' ∉ a → '\x7b' ∉ b →
        (GrammarB.NewStdFormatter (a ++ '%' :: '%' :: b)).Format ctx =
          some (postNewline (a ++ '%' :: '%' :: b))) := by
  constructor
  · intro a b data hpa hpb hba hbb
    have hv : GrammarA.verbOf '%' = none := rfl
    have h0 : GrammarA.scan false [] [] [] 0 (a ++ '%' :: '%' :: b) =
        GrammarA.scan false a [] [] 0 ('%' :: '%' :: b) := by
      have := GrammarA.scan_literal a [] [] [] 0 ('%' :: '%' :: b) hpa hba
      simpa using this
    have hb3 : ∀ raw strs parts,
        GrammarA.scan false raw strs parts 0 b =
          GrammarA.scan false (raw ++ b) strs parts 0 [] := by
      intro raw strs parts
      have := GrammarA.scan_literal b raw strs parts 0 [] hpb hbb
      rw [List.append_nil] at this
      exact this
    by_cases ha : a = []
    · subst ha
      have h1 : GrammarA.scan false [] [] [] 0 ('%' :: '%' :: b) =
          GrammarA.scan true [] [] [] 0 ('%' :: b) := by
        simp [GrammarA.scan]
      have h2 : GrammarA.scan true [] [] [] 0 ('%' :: b) =
          GrammarA.scan false ['%'] [] [] 0 b := by
        simp [GrammarA.scan, hv]
      have h4 : GrammarA.scan false ('%' :: b) [] [] 0 [] =
          (['%' :: b], [.vSTRING], 0) := by
        simp [GrammarA.scan]
      have hform : GrammarA.NewStdFormatter ([] ++ '%' :: '%' :: b) =
          ⟨'%' :: '%' :: b, ['%' :: b], [.vSTRING],
            List.replicate 64 (Char.ofNat 0), 0⟩ := by
        simp only [GrammarA.NewStdFormatter, List.nil_append, h1, h2,
          hb3 ['%'] [] [], List.singleton_append, h4]
      rw [hform]
      unfold GrammarA.StdFormatter.Format
      simp [GrammarA.formatStep]
    · have h1 : GrammarA.scan false a [] [] 0 ('%' :: '%' :: b) =
          GrammarA.scan true [] [a] [.vSTRING] 0 ('%' :: b) := by
        have hl : 0 < a.length := List.length_pos.mpr ha
        simp [GrammarA.scan, hl]
      have h2 : GrammarA.scan true [] [a] [.vSTRING] 0 ('%' :: b) =
          GrammarA.scan false ['%'] [a] [.vSTRING] 0 b := by
        simp [GrammarA.scan, hv]
      have h4 : GrammarA.scan false ('%' :: b) [a] [.vSTRING] 0 [] =
          ([a, '%' :: b], [.vSTRING, .vSTRING], 0) := by
        simp [GrammarA.scan]
      have hform : GrammarA.NewStdFormatter (a ++ '%' :: '%' :: b) =
          ⟨a ++ '%' :: '%' :: b, [a, '%' :: b], [.vSTRING, .vSTRING],
            List.replicate 64 (Char.ofNat 0), 0⟩ := by
        simp only [GrammarA.NewStdFormatter, h0, h1, h2,
          hb3 ['%'] [a] [.vSTRING], List.singleton_append, h4]
      rw [hform]
      unfold GrammarA.StdFormatter.Format
      simp [GrammarA.formatStep]
  · intro a b ctx hba hbb
    have hmem : '\x7b' ∉ a ++ '%' :: '%' :: b := by
      intro hm
      rcases List.mem_append.mp hm with h | h
      · exact hba h
      · rcases h with _ | ⟨_, h⟩
        rcases h with _ | ⟨_, h⟩
        exact hbb h
    exact GrammarB.formatB_literal (a ++ '%' :: '%' :: b) ctx (by simp)
      (GrammarB.findAll_no_brace (a ++ '%' :: '%' :: b) hmem)

/-- Witness for C6 with context `'a' … 'b'` around the doubled sentinel. -/
theorem c6_doubled_sentinel_witness :
    (GrammarA.NewStdFormatter (['a'] ++ '%' :: '%' :: ['b'])).Format recBase =
      some (postNewline (['a'] ++ '%' :: ['b'])) ∧
    (GrammarB.NewStdFormatter (['a'] ++ '%' :: '%' :: ['b'])).Format ctxBase =
      some (postNewline (['a'] ++ '%' :: '%' :: ['b'])) :=
  ⟨c6_doubled_sentinel.1 ['a'] ['b'] recBase (by decide) (by decide)
      (by decide) (by decide),
   c6_doubled_sentinel.2 ['a'] ['b'] ctxBase (by decide) (by decide)⟩

/-! ## Unknown Grammar B verbs -/

/-- The letter run of a letters-only name followed by a closing brace is
the whole name. -/
theorem GrammarB.letterRun_name (name : List Char)
    (h : ∀ c ∈ name, GrammarB.isREletter c = true) :
    GrammarB.letterRun (name ++ ['\x7d']) = name.length := by
  induction name with
  | nil => rfl
  | cons c cs ih =>
    have hc := h c (List.mem_cons_self c cs)
    simp only [List.cons_append, GrammarB.letterRun, hc, if_true,
      List.length_cons]
    have := ih (fun x hx => h x (List.mem_cons_of_mem c hx))
    show GrammarB.letterRun (cs ++ ['\x7d']) + 1 = cs.length + 1
    rw [this]

/-- `formatRe` matches a bare unknown-name token `%\x7bname\x7d` in full,
capturing the name with no layout. -/
theorem GrammarB.matchAtHead_name (name : List Char) (hne : name ≠ [])
    (h : ∀ c ∈ name, GrammarB.isREletter c = true) :
    GrammarB.matchAtHead ('%' :: '\x7b' :: name ++ ['\x7d']) =
      some (2 + name.length + 1, name, none) := by
  have hk := GrammarB.letterRun_name name h
  have hk0 : name.length ≠ 0 := fun hh => hne (List.eq_nil_of_length_eq_zero hh)
  have hsp : GrammarB.isREspace '\x7d' = false := rfl
  simp [GrammarB.matchAtHead, hk, hk0, hsp]

/-- The only match in the bare token template is the token itself. -/
theorem GrammarB.findAll_name (name : List Char) (hne : name ≠ [])
    (h : ∀ c ∈ name, GrammarB.isREletter c = true) :
    GrammarB.findAll ('%' :: '\x7b' :: name ++ ['\x7d']) =
      [⟨0, 2 + name.length + 1, name, none⟩] := by
  have hm := GrammarB.matchAtHead_name name hne h
  have hlen : ('%' :: '\x7b' :: name ++ ['\x7d']).length =
      2 + name.length + 1 := by simp; omega
  unfold GrammarB.findAll
  rw [hlen]
  simp only [GrammarB.findAllAux, hm]
  rw [show ('%' :: '\x7b' :: name ++ ['\x7d']).drop (2 + name.length + 1) =
      [] from by
    apply List.drop_eq_nil_of_le
    rw [hlen]]
  rw [show GrammarB.matchAtHead [] = none from rfl]
  simp

/-- C4 (counterexample): the unrecognized token `%\x7bBogus\x7d` is not
reproduced in the output — the template `"x%\x7bBogus\x7dy"` renders as
`"xy\n"`, with the token deleted, not preserved verbatim. -/
theorem c4_unknown_verb_not_literal :
    GrammarB.StdFormatter.Format
      (GrammarB.NewStdFormatter
        ('x' :: '%' :: '\x7b' :: "Bogus".toList ++ ['\x7d', 'y'])) ctxBase =
      some ['x', 'y', '\n'] ∧
    (['x', 'y', '\n'] : List Char) ≠
      'x' :: '%' :: '\x7b' :: "Bogus".toList ++ ['\x7d', 'y', '\n'] :=
  ⟨by decide, by decide⟩

/-- C4 (amended): a verb-shaped token whose letters-only name is not in
the verb table is dropped by compilation — it contributes neither an
instruction nor literal text; a template consisting of exactly that token
compiles to no segments and renders every record to the empty output. -/
theorem c4_unknown_verb_dropped :
    ∀ (name : List Char) (ctx : GrammarB.LogContext),
    name ≠ [] → (∀ c ∈ name, GrammarB.isREletter c = true) →
    GrammarB.verbMap name = none →
    (GrammarB.NewStdFormatter
        ('%' :: '\x7b' :: name ++ ['\x7d'])).Format ctx = some [] := by
  intro name ctx hne hletters hmap
  have hfa := GrammarB.findAll_name name hne hletters
  have hdrop : ('%' :: '\x7b' :: name ++ ['\x7d']).drop
      (2 + name.length + 1) = [] := by
    apply List.drop_eq_nil_of_le
    simp
    omega
  have hcl : GrammarB.compileLoop ('%' :: '\x7b' :: name ++ ['\x7d']) 0
      [] [] 0 [⟨0, 2 + name.length + 1, name, none⟩] = ([], [], 0) := by
    simp only [GrammarB.compileLoop, hmap, Nat.lt_irrefl, if_false, hdrop]
    simp [GrammarB.compileLoop, hdrop]
  have hform : GrammarB.NewStdFormatter ('%' :: '\x7b' :: name ++ ['\x7d']) =
      ⟨'%' :: '\x7b' :: name ++ ['\x7d'], [], [], [],
        List.replicate 64 (Char.ofNat 0), 0⟩ := by
    simp only [GrammarB.NewStdFormatter, hfa, hcl]
  rw [hform]
  rfl

/-- Witness for C4 at the unknown name `"Bogus"`. -/
theorem c4_unknown_verb_dropped_witness :
    (GrammarB.NewStdFormatter
        ('%' :: '\x7b' :: "Bogus".toList ++ ['\x7d'])).Format ctxBase =
      some [] :=
  c4_unknown_verb_dropped "Bogus".toList ctxBase (by decide) (by decide)
    (by decide)

/-! ## The location-capture flag invariant -/

/-- `&&&` distributes over `|||` on `Nat`. -/
theorem nat_or_and_distrib (a b m : Nat) :
    (a ||| b) &&& m = (a &&& m) ||| (b &&& m) := by
  apply Nat.eq_of_testBit_eq
  intro i
  simp [Nat.testBit_or, Nat.testBit_and, Bool.and_or_distrib_right]

/-- A bitwise or vanishes iff both sides do. -/
theorem nat_or_eq_zero (a b : Nat) : a ||| b = 0 ↔ a = 0 ∧ b = 0 := by
  constructor
  · intro h
    constructor <;>
      · apply Nat.eq_of_testBit_eq
        intro i
        have := congrArg (fun n => Nat.testBit n i) h
        simp [Nat.testBit_or] at this
        simp [this.1, this.2]
  · rintro ⟨rfl, rfl⟩
    rfl

/-- Masking an or-accumulated flag word is nonzero iff either summand
meets the mask. -/
theorem nat_or_and_ne_zero (a b m : Nat) :
    ((a ||| b) &&& m ≠ 0) ↔ (a &&& m ≠ 0) ∨ (b &&& m ≠ 0) := by
  rw [nat_or_and_distrib, ne_eq, nat_or_eq_zero]
  tauto

/-- Existence over a snoc. -/
theorem exists_mem_push {α} (l : List α) (x : α) (P : α → Prop) :
    (∃ p ∈ l ++ [x], P p) ↔ (∃ p ∈ l, P p) ∨ P x := by
  simp [List.mem_append, or_and_right, exists_or]

/-- The Grammar A verbs that require caller metadata (the claim's
enumeration). -/
def GrammarA.locationVerbs : List GrammarA.fmtVerb :=
  [.vFILE, .vSHORT_FILE, .vEXTRA_SHORT_FILE, .vLINE, .vPACKAGE_FUNCTION,
   .vFUNCTION]

/-- A verb's bit meets `vRUNTIME_CALLER` exactly for location verbs. -/
theorem GrammarA.valA_and_mask (v : GrammarA.fmtVerb) :
    (v.val &&& GrammarA.vRUNTIME_CALLER ≠ 0) ↔
      v ∈ GrammarA.locationVerbs := by
  cases v <;> decide

/-- Invariant of the Grammar A scanner: the flag word meets the
runtime-caller mask exactly when a location verb has been compiled. -/
theorem GrammarA.scan_flags (cs : List Char) :
    ∀ (isverb : Bool) raw strs parts flags,
    ((flags &&& GrammarA.vRUNTIME_CALLER ≠ 0) ↔
      ∃ p ∈ parts, p ∈ GrammarA.locationVerbs) →
    (((GrammarA.scan isverb raw strs parts flags cs).2.2 &&&
        GrammarA.vRUNTIME_CALLER ≠ 0) ↔
      ∃ p ∈ (GrammarA.scan isverb raw strs parts flags cs).2.1,
        p ∈ GrammarA.locationVerbs) := by
  induction cs with
  | nil =>
    intro isverb raw strs parts flags h
    by_cases hr : 0 < raw.length
    · simp only [GrammarA.scan, hr, if_true]
      rw [exists_mem_push]
      simpa [GrammarA.locationVerbs] using h
    · simp only [GrammarA.scan, hr, if_false]
      exact h
  | cons c cs ih =>
    intro isverb raw strs parts flags h
    cases isverb with
    | false =>
      by_cases hcp : c = '%'
      · subst hcp
        simp only [GrammarA.scan, eq_self_iff_true, true_and, if_true]
        by_cases hr : 0 < raw.length
        · rw [if_pos hr]
          apply ih
          rw [exists_mem_push]
          simpa [GrammarA.locationVerbs] using h
        · rw [if_neg hr]
          exact ih _ _ _ _ _ h
      · simp only [GrammarA.scan, hcp, and_false, if_false,
          Bool.false_eq_true]
        exact ih _ _ _ _ _ h
    | true =>
      simp only [GrammarA.scan, Bool.true_eq_false, false_and, if_false,
        if_true]
      rcases hv : GrammarA.verbOf c with _ | v
      · simp only [hv]
        by_cases hcp : c = '%'
        · rw [if_pos hcp]
          exact ih _ _ _ _ _ h
        · rw [if_neg hcp]
          exact ih _ _ _ _ _ h
      · simp only [hv]
        apply ih
        rw [exists_mem_push, nat_or_and_ne_zero, h, GrammarA.valA_and_mask]

/-- The Grammar B verbs that require caller metadata. -/
def GrammarB.locationVerbs : List GrammarB.fmtVerb :=
  [.vFullFile, .vFile, .vShortFile, .vLine, .vFullFunction, .vPkgFunction,
   .vFunction]

/-- A verb's bit meets `vRUNTIME_CALLER` exactly for location verbs. -/
theorem GrammarB.valB_and_mask (v : GrammarB.fmtVerb) :
    (v.val &&& GrammarB.vRUNTIME_CALLER ≠ 0) ↔
      v ∈ GrammarB.locationVerbs := by
  cases v <;> decide

/-- `appendString` preserves both halves of the compile invariant: it adds
at most a `vSTRING` part and never touches the flag word. -/
theorem GrammarB.inv_appendString (strs : List (List Char))
    (parts : List GrammarB.fmtVerb) (s : List Char) (flags : Nat)
    (h : (flags &&& GrammarB.vRUNTIME_CALLER ≠ 0) ↔
      ∃ p ∈ parts, p ∈ GrammarB.locationVerbs)
    (hc : GrammarB.fmtVerb.vColor ∉ parts) :
    ((flags &&& GrammarB.vRUNTIME_CALLER ≠ 0) ↔
      ∃ p ∈ (GrammarB.appendString strs parts s).2,
        p ∈ GrammarB.locationVerbs) ∧
    GrammarB.fmtVerb.vColor ∉ (GrammarB.appendString strs parts s).2 := by
  unfold GrammarB.appendString
  by_cases hs : 0 < s.length
  · simp only [hs, if_true]
    constructor
    · rw [exists_mem_push]
      simpa [GrammarB.locationVerbs] using h
    · simp [hc]
  · simp only [hs, if_false]
    exact ⟨h, hc⟩

/-- Invariant of the Grammar B compile loop: the flag word meets the
runtime-caller mask exactly when a location verb has been compiled, and
`vColor` never enters the instruction sequence. -/
theorem GrammarB.compileLoop_inv (ms : List GrammarB.BMatch) :
    ∀ (frmt : List Char) prev strs parts flags,
    ((flags &&& GrammarB.vRUNTIME_CALLER ≠ 0) ↔
      ∃ p ∈ parts, p ∈ GrammarB.locationVerbs) →
    GrammarB.fmtVerb.vColor ∉ parts →
    (((GrammarB.compileLoop frmt prev strs parts flags ms).2.2 &&&
        GrammarB.vRUNTIME_CALLER ≠ 0) ↔
      ∃ p ∈ (GrammarB.compileLoop frmt prev strs parts flags ms).2.1,
        p ∈ GrammarB.locationVerbs) ∧
    GrammarB.fmtVerb.vColor ∉
      (GrammarB.compileLoop frmt prev strs parts flags ms).2.1 := by
  induction ms with
  | nil =>
    intro frmt prev strs parts flags h hc
    by_cases ht : frmt.drop prev = []
    · simp only [GrammarB.compileLoop]
      rw [if_neg (not_not_intro ht)]
      exact ⟨h, hc⟩
    · simp only [GrammarB.compileLoop]
      rw [if_pos ht]
      exact GrammarB.inv_appendString strs parts (frmt.drop prev) flags h hc
  | cons m ms ih =>
    intro frmt prev strs parts flags h hc
    have h0 := GrammarB.inv_appendString strs parts
      ((frmt.drop prev).take (m.start - prev)) flags h hc
    have hmem : ∀ (v : GrammarB.fmtVerb) (parts0 : List GrammarB.fmtVerb),
        v ≠ .vColor → GrammarB.fmtVerb.vColor ∉ parts0 →
        GrammarB.fmtVerb.vColor ∉ parts0 ++ [v] := by
      intro v parts0 hv0 hp0 hm
      rcases List.mem_append.mp hm with hp | hp
      · exact hp0 hp
      · rw [List.mem_singleton] at hp
        exact hv0 hp.symm
    rcases hv : GrammarB.verbMap m.verb with _ | v
    · simp only [GrammarB.compileLoop, hv]
      by_cases hpre : prev < m.start
      · rw [if_pos hpre]
        exact ih _ _ _ _ _ h0.1 h0.2
      · rw [if_neg hpre]
        exact ih _ _ _ _ _ h hc
    · by_cases hcol : v = .vColor
      · subst hcol
        simp only [GrammarB.compileLoop, hv, if_pos rfl]
        by_cases hpre : prev < m.start
        · rw [if_pos hpre]
          by_cases hlay : m.layout.getD [] = "reset".toList
          · rw [if_pos hlay]
            have h1 := GrammarB.inv_appendString
              (GrammarB.appendString strs parts ((frmt.drop prev).take (m.start - prev))).1
              (GrammarB.appendString strs parts ((frmt.drop prev).take (m.start - prev))).2
              GrammarB.ansiReset flags h0.1 h0.2
            exact ih _ _ _ _ _ h1.1 h1.2
          · rw [if_neg hlay]
            have h1 := GrammarB.inv_appendString
              (GrammarB.appendString strs parts ((frmt.drop prev).take (m.start - prev))).1
              (GrammarB.appendString strs parts ((frmt.drop prev).take (m.start - prev))).2
              (GrammarB.ansiColorCode (m.layout.getD [])) flags h0.1 h0.2
            exact ih _ _ _ _ _ h1.1 h1.2
        · rw [if_neg hpre]
          by_cases hlay : m.layout.getD [] = "reset".toList
          · rw [if_pos hlay]
            have h1 := GrammarB.inv_appendString strs parts GrammarB.ansiReset
              flags h hc
            exact ih _ _ _ _ _ h1.1 h1.2
          · rw [if_neg hlay]
            have h1 := GrammarB.inv_appendString strs parts
              (GrammarB.ansiColorCode (m.layout.getD [])) flags h hc
            exact ih _ _ _ _ _ h1.1 h1.2
      · simp only [GrammarB.compileLoop, hv]
        rw [if_neg hcol]
        by_cases hpre : prev < m.start
        · rw [if_pos hpre]
          apply ih
          · rw [exists_mem_push, nat_or_and_ne_zero, h0.1,
              GrammarB.valB_and_mask]
          · exact hmem v _ hcol h0.2
        · rw [if_neg hpre]
          apply ih
          · rw [exists_mem_push, nat_or_and_ne_zero, h, GrammarB.valB_and_mask]
          · exact hmem v _ hcol hc

/-- C7: for both grammars, `ShouldRuntimeCaller` on a compiled format is
true exactly when at least one verb requiring caller/file/line/function
metadata was compiled from the template; and Grammar B `Color` verbs are
resolved at compile time into literal segments — they never enter the
instruction sequence (hence never contribute to the location mask). -/
theorem c7_should_runtime_caller :
    (∀ frmt : List Char,
        GrammarA.ShouldRuntimeCaller (GrammarA.NewStdFormatter frmt) = true ↔
          ∃ p ∈ (GrammarA.NewStdFormatter frmt).parts,
            p ∈ GrammarA.locationVerbs) ∧
    (∀ frmt : List Char,
        GrammarB.ShouldRuntimeCaller (GrammarB.NewStdFormatter frmt) = true ↔
          ∃ p ∈ (GrammarB.NewStdFormatter frmt).parts,
            p ∈ GrammarB.locationVerbs) ∧
    (∀ frmt : List Char,
        GrammarB.fmtVerb.vColor ∉ (GrammarB.NewStdFormatter frmt).parts) := by
  refine ⟨?_, ?_, ?_⟩
  · intro frmt
    have h := GrammarA.scan_flags frmt false [] [] [] 0
      (by simp [Nat.zero_and])
    simp only [GrammarA.ShouldRuntimeCaller, GrammarA.NewStdFormatter,
      bne_iff_ne]
    exact h
  · intro frmt
    have h := (GrammarB.compileLoop_inv (GrammarB.findAll frmt) frmt 0 [] [] 0
      (by simp [Nat.zero_and]) (by simp)).1
    simp only [GrammarB.ShouldRuntimeCaller, GrammarB.NewStdFormatter,
      bne_iff_ne]
    exact h
  · intro frmt
    have h := (GrammarB.compileLoop_inv (GrammarB.findAll frmt) frmt 0 [] [] 0
      (by simp [Nat.zero_and]) (by simp)).2
    simpa only [GrammarB.NewStdFormatter] using h

/-! ## The two-digit encoder refines the naive reference (C8) -/

/-- Setting an index at or beyond the kept prefix leaves a `take`
unchanged. -/
theorem take_set_of_le (l : List Char) (n m : Nat) (c : Char) (h : m ≤ n) :
    (l.set n c).take m = l.take m := by
  induction l generalizing n m with
  | nil => simp
  | cons a l ih =>
    cases n with
    | zero =>
      have : m = 0 := Nat.le_zero.mp h
      subst this; simp
    | succ n =>
      cases m with
      | zero => simp
      | succ m =>
        simp only [List.set_cons_succ, List.take_succ_cons]
        rw [ih n m (Nat.le_of_succ_le_succ h)]

/-- Dropping at a just-written index exposes the written element. -/
theorem drop_set_self (l : List Char) (n : Nat) (c : Char) (h : n < l.length) :
    (l.set n c).drop n = c :: l.drop (n + 1) := by
  rw [List.set_eq_take_cons_drop c h,
    List.drop_left' (List.length_take_of_le (Nat.le_of_lt h))]

theorem digitBytes_lt (d : Nat) (h : d < 10) :
    digitBytes d = [digits.getD d '0'] := by
  conv_lhs => rw [digitBytes]
  rw [dif_neg (by omega)]

theorem digitBytes_ge (d : Nat) (h : 10 ≤ d) :
    digitBytes d = digitBytes (d / 10) ++ [digits.getD (d % 10) '0'] := by
  conv_lhs => rw [digitBytes]
  rw [dif_pos h]

theorem digitBytes_length_pos (d : Nat) : 0 < (digitBytes d).length := by
  by_cases h : 10 ≤ d
  · rw [digitBytes_ge d h]; simp
  · rw [digitBytes_lt d (by omega)]; simp

/-- Characterization of the one-digit-at-a-time write loop: it replaces
the `(digitBytes d).length` positions below `j` with the decimal digits of
`d` and returns the final write index. -/
theorem allDigitsLoop_spec :
    ∀ (d : Nat) (buf : List Char) (j : Nat),
    (digitBytes d).length ≤ j → j ≤ buf.length →
    allDigitsLoop buf j d =
      (buf.take (j - (digitBytes d).length) ++ digitBytes d ++ buf.drop j,
        j - (digitBytes d).length) := by
  intro d
  induction d using Nat.strong_induction_on with
  | _ d ih =>
    intro buf j hk hj
    by_cases h10 : d < 10
    · rw [digitBytes_lt d h10] at hk ⊢
      simp only [List.length_cons, List.length_nil] at hk
      have hd1 : d / 10 = 0 := Nat.div_eq_of_lt h10
      have hmod : d % 10 = d := Nat.mod_eq_of_lt h10
      have hlt : j - 1 < buf.length := by omega
      have hj1 : j - 1 + 1 = j := by omega
      rw [allDigitsLoop]
      simp only [hd1, if_pos rfl, hmod]
      rw [List.set_eq_take_cons_drop _ hlt, hj1]
      simp
    · push_neg at h10
      rw [digitBytes_ge d h10] at hk ⊢
      simp only [List.length_append, List.length_cons, List.length_nil] at hk ⊢
      have hd1 : ¬ d / 10 = 0 := by omega
      have hlt : j - 1 < buf.length := by
        have := digitBytes_length_pos (d / 10)
        omega
      have hj1 : j - 1 + 1 = j := by
        have := digitBytes_length_pos (d / 10)
        omega
      rw [allDigitsLoop]
      simp only [if_neg hd1]
      rw [ih (d / 10) (Nat.div_lt_self (by omega) (by omega))
        (buf.set (j - 1) (digits.getD (d % 10) '0')) (j - 1)
        (by omega) (by simp; omega)]
      rw [take_set_of_le _ _ _ _ (by omega),
        drop_set_self _ _ _ hlt, hj1]
      have harith : j - 1 - (digitBytes (d / 10)).length =
          j - ((digitBytes (d / 10)).length + 1) := by omega
      rw [harith]
      simp

/-- The remainder processed by `itoa` after its two-digit loop. -/
def res100 (d : Nat) : Nat :=
  if _h : 100 ≤ d then res100 (d / 100) else d
termination_by d
decreasing_by exact Nat.div_lt_self (by omega) (by omega)

/-- The digit pairs emitted by the `itoa` loop, in buffer order. -/
def pairSuffix (d : Nat) : List Char :=
  if _h : 100 ≤ d then
    pairSuffix (d / 100) ++
      [ddigits.getD (d % 100 * 2) '0', ddigits.getD (d % 100 * 2 + 1) '0']
  else []
termination_by d
decreasing_by exact Nat.div_lt_self (by omega) (by omega)

theorem res100_ge (d : Nat) (h : 100 ≤ d) : res100 d = res100 (d / 100) := by
  conv_lhs => rw [res100]
  rw [dif_pos h]

theorem res100_lt (d : Nat) (h : d < 100) : res100 d = d := by
  conv_lhs => rw [res100]
  rw [dif_neg (by omega)]

theorem pairSuffix_ge (d : Nat) (h : 100 ≤ d) :
    pairSuffix d = pairSuffix (d / 100) ++
      [ddigits.getD (d % 100 * 2) '0', ddigits.getD (d % 100 * 2 + 1) '0'] := by
  conv_lhs => rw [pairSuffix]
  rw [dif_pos h]

theorem pairSuffix_lt (d : Nat) (h : d < 100) : pairSuffix d = [] := by
  conv_lhs => rw [pairSuffix]
  rw [dif_neg (by omega)]

theorem res100_lt_100 (d : Nat) : res100 d < 100 := by
  induction d using Nat.strong_induction_on with
  | _ d ih =>
    by_cases h : 100 ≤ d
    · rw [res100_ge d h]
      exact ih (d / 100) (Nat.div_lt_self (by omega) (by omega))
    · rw [res100_lt d (by omega)]
      omega

/-- The `ddigits` pair at index `m*2` is the two decimal digits of `m`. -/
theorem ddigits_table : ∀ m : Nat, m < 100 →
    ddigits.getD (m * 2) '0' = digits.getD (m / 10) '0' ∧
    ddigits.getD (m * 2 + 1) '0' = digits.getD (m % 10) '0' := by decide

/-- The decimal representation splits into the loop remainder's digits
followed by the emitted pairs. -/
theorem digitBytes_split (d : Nat) :
    digitBytes d = digitBytes (res100 d) ++ pairSuffix d := by
  induction d using Nat.strong_induction_on with
  | _ d ih
  =>
  by_cases h : 100 ≤ d
  · have h10 : 10 ≤ d := by omega
    have h10' : 10 ≤ d / 10 := by omega
    have hm : d % 100 < 100 := Nat.mod_lt d (by omega)
    have htab := ddigits_table (d % 100) hm
    have e1 : d / 10 / 10 = d / 100 := by omega
    have e2 : d / 10 % 10 = d % 100 / 10 := by omega
    have e3 : d % 10 = d % 100 % 10 := by omega
    rw [digitBytes_ge d h10, digitBytes_ge (d / 10) h10', e1, e2, e3,
      ih (d / 100) (Nat.div_lt_self (by omega) (by omega)),
      res100_ge d h, pairSuffix_ge d h, ← htab.1, ← htab.2]
    simp
  · rw [res100_lt d (by omega), pairSuffix_lt d (by omega)]
    simp

/-- Characterization of the two-digits-at-a-time write loop: it replaces
the `(pairSuffix d).length` positions below `j` with the emitted pairs and
leaves the remainder `res100 d` for the caller. -/
theorem itoaLoop_spec :
    ∀ (d : Nat) (buf : List Char) (j : Nat),
    (pairSuffix d).length ≤ j → j ≤ buf.length →
    itoaLoop buf j d =
      (buf.take (j - (pairSuffix d).length) ++ pairSuffix d ++ buf.drop j,
        j - (pairSuffix d).length, res100 d) := by
  intro d
  induction d using Nat.strong_induction_on with
  | _ d ih =>
    intro buf j hk hj
    by_cases h : 100 ≤ d
    · rw [pairSuffix_ge d h] at hk ⊢
      simp only [List.length_append, List.length_cons, List.length_nil] at hk ⊢
      have hp2 : (pairSuffix (d / 100)).length + 2 ≤ j := by omega
      have hlt1 : j - 1 < buf.length := by omega
      have hlt2 : j - 2 < buf.length := by omega
      have hj1 : j - 2 + 1 = j - 1 := by omega
      have hj2 : j - 1 + 1 = j := by omega
      rw [itoaLoop]
      rw [dif_pos h]
      rw [ih (d / 100) (Nat.div_lt_self (by omega) (by omega)) _ (j - 1 - 1)
        (by omega) (by simp; omega)]
      rw [show j - 1 - 1 = j - 2 from by omega]
      rw [take_set_of_le _ _ _ _ (by omega), take_set_of_le _ _ _ _ (by omega)]
      rw [drop_set_self _ _ _ (by simp; omega)]
      rw [hj1]
      rw [drop_set_self _ _ _ hlt1, hj2]
      have harith : j - 2 - (pairSuffix (d / 100)).length =
          j - ((pairSuffix (d / 100)).length + 2) := by omega
      rw [harith, res100_ge d h]
      simp
    · rw [itoaLoop, dif_neg h, pairSuffix_lt d (by omega),
        res100_lt d (by omega)]
      simp

/-- Go's `byte(int('0') + d)` agrees with the `digits` table below 10. -/
theorem char_digit (r : Nat) (h : r < 10) :
    Char.ofNat (48 + r) = digits.getD r '0' := by
  interval_cases r <;> rfl

/-- Writing at the last kept position of a `take` appends the element to
the shorter prefix. -/
theorem set_take_last (buf : List Char) (m : Nat) (c : Char)
    (h1 : 0 < m) (h2 : m ≤ buf.length) :
    (buf.take m).set (m - 1) c = buf.take (m - 1) ++ [c] := by
  have hlen : (buf.take m).length = m := List.length_take_of_le h2
  have hidx : m - 1 < (buf.take m).length := by omega
  rw [List.set_eq_take_cons_drop c hidx, List.take_take,
    min_eq_left (by omega), show m - 1 + 1 = m from by omega]
  have hnil : (buf.take m).drop m = [] := by
    apply List.drop_eq_nil_of_le
    omega
  rw [hnil]

/-- After its write phase, `itoa` hands `goCopy` a buffer whose tail
segment is exactly the decimal representation of `d`, at the same start
index the naive loop produces. -/
theorem itoa_write_phase (d : Nat) (buf : List Char)
    (hk : (digitBytes d).length ≤ buf.length) (i : Nat) :
    itoa buf i d =
      goCopy (buf.take (buf.length - (digitBytes d).length) ++ digitBytes d)
        i (buf.length - (digitBytes d).length) := by
  have hsplit := digitBytes_split d
  have hr100 := res100_lt_100 d
  have hkval : (digitBytes d).length =
      (digitBytes (res100 d)).length + (pairSuffix d).length := by
    rw [hsplit]; simp
  have hp : (pairSuffix d).length ≤ buf.length := by
    have := digitBytes_length_pos (res100 d)
    omega
  unfold itoa
  rw [itoaLoop_spec d buf buf.length hp le_rfl]
  simp only [List.drop_length, List.append_nil]
  by_cases hr10 : res100 d < 10
  · rw [if_pos hr10]
    have hone : digitBytes (res100 d) = [digits.getD (res100 d) '0'] :=
      digitBytes_lt (res100 d) hr10
    have hkp : (digitBytes d).length = (pairSuffix d).length + 1 := by
      rw [hkval, hone]
      simp only [List.length_cons, List.length_nil]
      omega
    have hcat : digitBytes d = [digits.getD (res100 d) '0'] ++ pairSuffix d := by
      rw [hsplit, hone]
    have htklen : (buf.take (buf.length - (pairSuffix d).length)).length =
        buf.length - (pairSuffix d).length :=
      List.length_take_of_le (by omega)
    have hidx : buf.length - (pairSuffix d).length - 1 <
        (buf.take (buf.length - (pairSuffix d).length)).length := by
      rw [htklen]; omega
    rw [List.set_append_left _ _ hidx]
    rw [set_take_last buf (buf.length - (pairSuffix d).length) _
      (by omega) (by omega)]
    rw [char_digit (res100 d) hr10]
    rw [hcat,
      show buf.length - (pairSuffix d).length - 1 =
        buf.length - ([digits.getD (res100 d) '0'] ++ pairSuffix d).length
        from by simp only [List.length_append, List.length_cons,
          List.length_nil]; omega]
    simp [List.append_assoc]
  · rw [if_neg hr10]
    have hge : 10 ≤ res100 d := by omega
    have htab := ddigits_table (res100 d) hr100
    have hone : digitBytes (res100 d) =
        [ddigits.getD (res100 d * 2) '0',
         ddigits.getD (res100 d * 2 + 1) '0'] := by
      rw [digitBytes_ge (res100 d) hge,
        digitBytes_lt (res100 d / 10) (by omega), htab.1, htab.2]
      rfl
    have hkp : (digitBytes d).length = (pairSuffix d).length + 2 := by
      rw [hkval, hone]
      simp only [List.length_cons, List.length_nil]
      omega
    have hcat : digitBytes d =
        [ddigits.getD (res100 d * 2) '0'] ++
          ([ddigits.getD (res100 d * 2 + 1) '0'] ++ pairSuffix d) := by
      rw [hsplit, hone]
      rfl
    have htklen : (buf.take (buf.length - (pairSuffix d).length)).length =
        buf.length - (pairSuffix d).length :=
      List.length_take_of_le (by omega)
    have hidx : buf.length - (pairSuffix d).length - 1 <
        (buf.take (buf.length - (pairSuffix d).length)).length := by
      rw [htklen]; omega
    rw [List.set_append_left _ _ hidx]
    rw [set_take_last buf (buf.length - (pairSuffix d).length) _
      (by omega) (by omega)]
    have htklen2 : (buf.take (buf.length - (pairSuffix d).length - 1)).length =
        buf.length - (pairSuffix d).length - 1 :=
      List.length_take_of_le (by omega)
    have hidx2 : buf.length - (pairSuffix d).length - 1 - 1 <
        (buf.take (buf.length - (pairSuffix d).length - 1)).length := by
      rw [htklen2]; omega
    rw [List.append_assoc, List.set_append_left _ _ hidx2]
    rw [set_take_last buf (buf.length - (pairSuffix d).length - 1) _
      (by omega) (by omega)]
    rw [hcat,
      show buf.length - (pairSuffix d).length - 1 - 1 =
        buf.length -
          ([ddigits.getD (res100 d * 2) '0'] ++
            ([ddigits.getD (res100 d * 2 + 1) '0'] ++ pairSuffix d)).length
        from by simp only [List.length_append, List.length_cons,
          List.length_nil]; omega]
    simp [List.append_assoc]

/-- The naive loop produces the same pre-copy buffer and index. -/
theorem allDigits_write_phase (d : Nat) (buf : List Char)
    (hk : (digitBytes d).length ≤ buf.length) (i : Nat) :
    allDigits buf i d =
      goCopy (buf.take (buf.length - (digitBytes d).length) ++ digitBytes d)
        i (buf.length - (digitBytes d).length) := by
  unfold allDigits
  rw [allDigitsLoop_spec d buf buf.length hk le_rfl]
  simp only [List.drop_length, List.append_nil]

/-- C8: for every non-negative integer and every buffer with room for the
digits (and for the copy to the destination index), the two-digit
encoder `itoa` computes exactly what the naive reference `allDigits`
computes — same final buffer and same returned count — and what is
written at the destination index is the minimal decimal representation. -/
theorem c8_itoa_refines_allDigits :
    ∀ (d : Nat) (buf : List Char) (i : Nat),
    (digitBytes d).length ≤ buf.length →
    i + (digitBytes d).length ≤ buf.length →
    itoa buf i d = allDigits buf i d ∧
    (itoa buf i d).2 = (digitBytes d).length ∧
    ((itoa buf i d).1.drop i).take (digitBytes d).length = digitBytes d := by
  intro d buf i hk hi
  have hkpos := digitBytes_length_pos d
  rw [itoa_write_phase d buf hk i, allDigits_write_phase d buf hk i]
  refine ⟨rfl, ?_, ?_⟩
  · unfold goCopy
    simp only [List.length_append,
      List.length_take_of_le (by omega : buf.length - (digitBytes d).length ≤
        buf.length)]
    omega
  · have hlt : (buf.take (buf.length - (digitBytes d).length) ++
        digitBytes d).length = buf.length := by
      simp only [List.length_append,
        List.length_take_of_le (by omega : buf.length -
          (digitBytes d).length ≤ buf.length)]
      omega
    have hdropw : (buf.take (buf.length - (digitBytes d).length) ++
        digitBytes d).drop (buf.length - (digitBytes d).length) =
        digitBytes d :=
      List.drop_left' (List.length_take_of_le (by omega))
    have htki : ((buf.take (buf.length - (digitBytes d).length) ++
        digitBytes d).take i).length = i := by
      apply List.length_take_of_le
      rw [hlt]
      omega
    simp only [goCopy]
    rw [hlt]
    have hn : min (buf.length - i)
        (buf.length - (buf.length - (digitBytes d).length)) =
        (digitBytes d).length := by omega
    rw [hn, hdropw, List.take_length, List.append_assoc,
      List.drop_left' htki]
    exact List.take_left' rfl

/-- `digitBytes` at the benchmark value 3456. -/
theorem digitBytes_3456 : digitBytes 3456 = ['3', '4', '5', '6'] := by
  rw [digitBytes_ge 3456 (by omega), digitBytes_ge 345 (by omega),
    digitBytes_ge 34 (by omega), digitBytes_lt 3 (by omega)]
  rfl

/-- Witness for C8 at the repository benchmark input `d = 3456` into a
64-byte buffer. -/
theorem c8_itoa_refines_allDigits_witness :
    itoa (List.replicate 64 'a') 0 3456 =
      allDigits (List.replicate 64 'a') 0 3456 ∧
    (itoa (List.replicate 64 'a') 0 3456).2 = (digitBytes 3456).length ∧
    ((itoa (List.replicate 64 'a') 0 3456).1.drop 0).take
      (digitBytes 3456).length = digitBytes 3456 :=
  c8_itoa_refines_allDigits 3456 (List.replicate 64 'a') 0
    (by rw [digitBytes_3456]; decide) (by rw [digitBytes_3456]; decide)
